import Mathlib

/-!
Shallow embedding of the go.events event emitter (src/events.go).

The Go `emitter` holds a `sync.Map` from `EventName` to `[]Listener` and an
`int` cap `maxListeners`.  Here the map is an association list with unique
keys maintained by `mapStore`/`mapDelete`; a Go listener value is identified
by its callable pointer (`reflect.ValueOf(l).Pointer()`), modelled by the
`id` field.  `Emit` performs no store in the Go code, so it returns the
unchanged emitter alongside the invocation trace.
-/

namespace Events

/-- Go `type EventName string`. -/
abbrev EventName := String

/-- A registered listener callback; Go compares listeners by the callable
pointer, modelled by `id`. -/
structure Listener where
  id : Nat
deriving DecidableEq, Repr

/-- The registry backing the `sync.Map`: event name to ordered listeners. -/
abbrev Registry := List (EventName × List Listener)

/-- Model of `sync.Map.Load`. -/
def mapLoad : Registry → EventName → Option (List Listener)
  | [], _ => none
  | (k, v) :: rest, evt => if k = evt then some v else mapLoad rest evt

/-- Model of `sync.Map.Store`: replace the entry in place, or append a new one. -/
def mapStore : Registry → EventName → List Listener → Registry
  | [], evt, v => [(evt, v)]
  | (k, w) :: rest, evt, v =>
    if k = evt then (k, v) :: rest else (k, w) :: mapStore rest evt v

/-- Model of `sync.Map.Delete`. -/
def mapDelete : Registry → EventName → Registry
  | [], _ => []
  | (k, w) :: rest, evt =>
    if k = evt then mapDelete rest evt else (k, w) :: mapDelete rest evt

/-- Model of `sync.Map.LoadOrStore(evt, []Listener\x7b\x7d)`: the map after ensuring an
entry for `evt`, together with the loaded (or freshly stored empty) value. -/
def mapLoadOrStore (m : Registry) (evt : EventName) : Registry × List Listener :=
  match mapLoad m evt with
  | some v => (m, v)
  | none => (mapStore m evt [], [])

/-- Go constant `DefaultMaxListeners = 0`. -/
def DefaultMaxListeners : Int := 0

/-- The `emitter` struct (the mutex is serialization-only and carries no
state). -/
structure Emitter where
  maxListeners : Int
  evtListeners : Registry
deriving DecidableEq, Repr

/-- Go `New()`. -/
def New : Emitter := ⟨DefaultMaxListeners, []⟩

/-- Go `emitter.AddListener`: load-or-store the entry, drop the whole call when
the cap is positive and already met by the current count, else append all
passed listeners. -/
def AddListener (e : Emitter) (evt : EventName) (listeners : List Listener) : Emitter :=
  let p := mapLoadOrStore e.evtListeners evt
  if 0 < e.maxListeners ∧ e.maxListeners ≤ (p.2.length : Int) then
    { e with evtListeners := p.1 }
  else
    { e with evtListeners := mapStore p.1 evt (p.2 ++ listeners) }

/-- Go `emitter.Emit`: the unchanged emitter (the Go code performs no store)
and the invocation trace, one `(listener, payload)` pair per callback, in
slice order. -/
def Emit (e : Emitter) (evt : EventName) (data : List α) :
    Emitter × List (Listener × List α) :=
  match mapLoad e.evtListeners evt with
  | some listeners => (e, listeners.map (fun l => (l, data)))
  | none => (e, [])

/-- Go `emitter.EventNames` (range order abstracted as key order). -/
def EventNames (e : Emitter) : List EventName :=
  e.evtListeners.map Prod.fst

/-- Go `emitter.GetMaxListeners`. -/
def GetMaxListeners (e : Emitter) : Int := e.maxListeners

/-- Go `emitter.ListenerCount`. -/
def ListenerCount (e : Emitter) (evt : EventName) : Nat :=
  match mapLoad e.evtListeners evt with
  | some listeners => listeners.length
  | none => 0

/-- Go `emitter.Listeners` (`nil` for an absent entry becomes `none`). -/
def Listeners (e : Emitter) (evt : EventName) : Option (List Listener) :=
  mapLoad e.evtListeners evt

/-- Go `emitter.On` delegates to `AddListener`. -/
def On (e : Emitter) (evt : EventName) (listeners : List Listener) : Emitter :=
  AddListener e evt listeners

/-- Go `emitter.Once` delegates to `AddListener`; no self-removal happens. -/
def Once (e : Emitter) (evt : EventName) (listeners : List Listener) : Emitter :=
  AddListener e evt listeners

/-- Go `emitter.RemoveAllListeners`: delete the entry, then report whether a
reload finds nothing. -/
def RemoveAllListeners (e : Emitter) (evt : EventName) : Emitter × Bool :=
  let m := mapDelete e.evtListeners evt
  ({ e with evtListeners := m }, (mapLoad m evt).isNone)

/-- The loop of `emitter.RemoveListener`: drop the first listener whose
identity matches the target, reporting `none` when no match exists. -/
def removeFirst : List Listener → Listener → Option (List Listener)
  | [], _ => none
  | l :: rest, target =>
    if l.id = target.id then some rest
    else (removeFirst rest target).map (fun r => l :: r)

/-- Go `emitter.RemoveListener`. -/
def RemoveListener (e : Emitter) (evt : EventName) (listener : Listener) :
    Emitter × Bool :=
  match mapLoad e.evtListeners evt with
  | some listeners =>
    match removeFirst listeners listener with
    | some rest => ({ e with evtListeners := mapStore e.evtListeners evt rest }, true)
    | none => (e, false)
  | none => (e, false)

/-- Go `emitter.Clear`: fresh `sync.Map`. -/
def Clear (e : Emitter) : Emitter := { e with evtListeners := [] }

/-- Go `emitter.SetMaxListeners`: negative values are rejected. -/
def SetMaxListeners (e : Emitter) (n : Int) : Emitter :=
  if n < 0 then e else { e with maxListeners := n }

/-- Go `emitter.Len`: number of keys the range visits. -/
def Len (e : Emitter) : Nat := e.evtListeners.length

/-- A sequence of `AddListener` calls applied in order. -/
def runAdds (e : Emitter) (ops : List (EventName × List Listener)) : Emitter :=
  ops.foldl (fun acc p => AddListener acc p.1 p.2) e

/-- Total number of listeners passed for `evt` across a call sequence. -/
def totalFor (evt : EventName) (ops : List (EventName × List Listener)) : Nat :=
  (ops.map (fun p => if p.1 = evt then p.2.length else 0)).sum

/-! ### Registry lemmas -/

theorem load_store_self (m : Registry) (evt : EventName) (v : List Listener) :
    mapLoad (mapStore m evt v) evt = some v := by
  induction m with
  | nil => simp [mapStore, mapLoad]
  | cons hd tl ih =>
    obtain ⟨k, w⟩ := hd
    by_cases hk : k = evt
    · simp [mapStore, mapLoad, hk]
    · simp [mapStore, mapLoad, hk, ih]

theorem load_store_ne (m : Registry) (evt evt2 : EventName) (v : List Listener)
    (h : evt2 ≠ evt) : mapLoad (mapStore m evt v) evt2 = mapLoad m evt2 := by
  induction m with
  | nil => simp [mapStore, mapLoad, Ne.symm h]
  | cons hd tl ih =>
    obtain ⟨k, w⟩ := hd
    by_cases hk : k = evt
    · subst hk
      simp [mapStore, mapLoad, Ne.symm h]
    · simp [mapStore, mapLoad, hk, ih]

theorem store_store (m : Registry) (evt : EventName) (v w : List Listener) :
    mapStore (mapStore m evt v) evt w = mapStore m evt w := by
  induction m with
  | nil => simp [mapStore]
  | cons hd tl ih =>
    obtain ⟨k, u⟩ := hd
    by_cases hk : k = evt
    · simp [mapStore, hk]
    · simp [mapStore, hk, ih]

theorem store_absent (m : Registry) (evt : EventName) (v : List Listener)
    (h : mapLoad m evt = none) : mapStore m evt v = m ++ [(evt, v)] := by
  induction m with
  | nil => simp [mapStore]
  | cons hd tl ih =>
    obtain ⟨k, u⟩ := hd
    by_cases hk : k = evt
    · simp [mapLoad, hk] at h
    · simp [mapLoad, hk] at h
      simp [mapStore, hk, ih h]

theorem load_delete_self (m : Registry) (evt : EventName) :
    mapLoad (mapDelete m evt) evt = none := by
  induction m with
  | nil => simp [mapDelete, mapLoad]
  | cons hd tl ih =>
    obtain ⟨k, w⟩ := hd
    by_cases hk : k = evt
    · simp [mapDelete, hk, ih]
    · simp [mapDelete, mapLoad, hk, ih]

theorem load_delete_ne (m : Registry) (evt evt2 : EventName)
    (h : evt2 ≠ evt) : mapLoad (mapDelete m evt) evt2 = mapLoad m evt2 := by
  induction m with
  | nil => simp [mapDelete]
  | cons hd tl ih =>
    obtain ⟨k, w⟩ := hd
    by_cases hk : k = evt
    · subst hk
      simp [mapDelete, mapLoad, Ne.symm h, ih]
    · simp [mapDelete, mapLoad, hk, ih]

theorem not_mem_fst_delete (m : Registry) (evt : EventName) :
    evt ∉ (mapDelete m evt).map Prod.fst := by
  induction m with
  | nil => simp [mapDelete]
  | cons hd tl ih =>
    obtain ⟨k, w⟩ := hd
    by_cases hk : k = evt
    · simp [mapDelete, hk, ih]
    · simp [mapDelete, hk, ih]
      exact fun hh => hk hh.symm

theorem mem_fst_store (m : Registry) (evt : EventName) (v : List Listener) :
    evt ∈ (mapStore m evt v).map Prod.fst := by
  induction m with
  | nil => simp [mapStore]
  | cons hd tl ih =>
    obtain ⟨k, w⟩ := hd
    by_cases hk : k = evt
    · simp [mapStore, hk]
    · simp [mapStore, hk]
      right
      simpa using ih

/-! ### removeFirst lemmas -/

theorem removeFirst_no_match (ls : List Listener) (t : Listener)
    (h : ∀ y ∈ ls, y.id ≠ t.id) : removeFirst ls t = none := by
  induction ls with
  | nil => rfl
  | cons hd tl ih =>
    have hhd : hd.id ≠ t.id := h hd (by simp)
    simp [removeFirst, hhd, ih fun y hy => h y (by simp [hy])]

theorem removeFirst_first_match (a b : List Listener) (x t : Listener)
    (hx : x.id = t.id) (ha : ∀ y ∈ a, y.id ≠ t.id) :
    removeFirst (a ++ x :: b) t = some (a ++ b) := by
  induction a with
  | nil => simp [removeFirst, hx]
  | cons hd tl ih =>
    have hhd : hd.id ≠ t.id := ha hd (by simp)
    simp [removeFirst, hhd, ih fun y hy => ha y (by simp [hy])]

theorem emit_fst (e : Emitter) (evt : EventName) (data : List α) :
    (Emit e evt data).1 = e := by
  cases h : mapLoad e.evtListeners evt <;> simp [Emit, h]

/-! ### Claims -/

/-- C1: `Emit` never changes the registry; it invokes exactly the listeners
registered for the name, once each, in insertion (slice) order, each with
the same payload sequence; when no entry exists the call is a no-op that
invokes nothing. -/
theorem emit_invokes_in_order (α : Type) (e : Emitter) (evt : EventName)
    (data : List α) :
    (Emit e evt data).1 = e
    ∧ (Emit e evt data).2 = ((Listeners e evt).getD []).map (fun l => (l, data))
    ∧ (Emit e evt data).2.length = ListenerCount e evt
    ∧ (∀ p ∈ (Emit e evt data).2, p.2 = data)
    ∧ (Listeners e evt = none → Emit e evt data = (e, []))
    ∧ ∀ l1 l2 : Listener,
        (Emit (On (On New evt [l1]) evt [l2]) evt data).2
          = [(l1, data), (l2, data)] := by
  have hmain : (Emit e evt data).1 = e
      ∧ (Emit e evt data).2 = ((Listeners e evt).getD []).map (fun l => (l, data))
      ∧ (Emit e evt data).2.length = ListenerCount e evt
      ∧ (∀ p ∈ (Emit e evt data).2, p.2 = data)
      ∧ (Listeners e evt = none → Emit e evt data = (e, [])) := by
    cases h : mapLoad e.evtListeners evt <;>
      simp [Emit, Listeners, ListenerCount, h]
  refine ⟨hmain.1, hmain.2.1, hmain.2.2.1, hmain.2.2.2.1, hmain.2.2.2.2, ?_⟩
  intro l1 l2
  have ha : On (On New evt [l1]) evt [l2] = ⟨0, [(evt, [l1, l2])]⟩ := by
    simp [On, AddListener, New, DefaultMaxListeners, mapLoadOrStore, mapLoad, mapStore]
  rw [ha]
  simp [Emit, mapLoad]

theorem emit_invokes_in_order_witness :
    (Emit (⟨0, [("a", [⟨1⟩, ⟨2⟩])]⟩ : Emitter) "a" [(7 : Nat)]).1
        = ⟨0, [("a", [⟨1⟩, ⟨2⟩])]⟩
    ∧ ((⟨1⟩, [7]) : Listener × List Nat).2 = [7]
    ∧ Emit New "a" [(7 : Nat)] = (New, []) := by
  refine ⟨(emit_invokes_in_order Nat ⟨0, [("a", [⟨1⟩, ⟨2⟩])]⟩ "a" [7]).1, ?_, ?_⟩
  · exact (emit_invokes_in_order Nat ⟨0, [("a", [⟨1⟩, ⟨2⟩])]⟩ "a" [7]).2.2.2.1
      (⟨1⟩, [7]) (by decide)
  · exact (emit_invokes_in_order Nat New "a" [7]).2.2.2.2.1 rfl

/-- C3: when the cap is positive and the current count for the name already
meets it, `AddListener` leaves the whole emitter unchanged and surfaces no
error. -/
theorem addListener_at_capacity_noop (e : Emitter) (evt : EventName)
    (listeners : List Listener) (h1 : 0 < e.maxListeners)
    (h2 : e.maxListeners ≤ (ListenerCount e evt : Int)) :
    AddListener e evt listeners = e := by
  cases h : mapLoad e.evtListeners evt with
  | none =>
    simp [ListenerCount, h] at h2
    omega
  | some ls =>
    simp only [ListenerCount, h] at h2
    simp only [AddListener, mapLoadOrStore, h]
    rw [if_pos ⟨h1, h2⟩]

theorem addListener_at_capacity_noop_witness :
    AddListener ⟨1, [("a", [⟨0⟩])]⟩ "a" [⟨1⟩] = ⟨1, [("a", [⟨0⟩])]⟩ :=
  addListener_at_capacity_noop ⟨1, [("a", [⟨0⟩])]⟩ "a" [⟨1⟩] (by decide) (by decide)

/-- C5: `SetMaxListeners` with a negative argument is a complete no-op: the
emitter (cap and registry alike) is unchanged and no error is surfaced. -/
theorem setMaxListeners_negative_noop (e : Emitter) (n : Int) (h : n < 0) :
    SetMaxListeners e n = e
    ∧ GetMaxListeners (SetMaxListeners e n) = GetMaxListeners e := by
  constructor <;> simp [SetMaxListeners, h]

theorem setMaxListeners_negative_noop_witness :
    SetMaxListeners New (-1) = New
    ∧ GetMaxListeners (SetMaxListeners New (-1)) = GetMaxListeners New :=
  setMaxListeners_negative_noop New (-1) (by decide)

/-- C8: `Once` produces exactly the same emitter as `AddListener`, and a
subsequent `Emit` removes nothing: the emitter after emitting is the one
`Once` built, with the listener count intact. -/
theorem once_equals_addListener (α : Type) (e : Emitter) (evt evt2 : EventName)
    (ls : List Listener) (data : List α) :
    Once e evt ls = AddListener e evt ls
    ∧ (Emit (Once e evt ls) evt2 data).1 = Once e evt ls
    ∧ ListenerCount (Emit (Once e evt ls) evt2 data).1 evt
        = ListenerCount (AddListener e evt ls) evt := by
  exact ⟨rfl, emit_fst _ _ _, by rw [emit_fst]; rfl⟩

/-- C9: after `Clear` the registry is empty: no keys, no names, and a zero
count for every name. -/
theorem clear_empties_registry (e : Emitter) :
    Len (Clear e) = 0
    ∧ EventNames (Clear e) = []
    ∧ ∀ evt, ListenerCount (Clear e) evt = 0 :=
  ⟨rfl, rfl, fun _ => rfl⟩

/-- C6: `RemoveAllListeners` always returns `true`, fully deletes the entry
for the name (so the name disappears from `EventNames` and its count is 0),
and leaves every other name's listener sequence untouched. -/
theorem removeAllListeners_deletes_entry (e : Emitter) (evt : EventName) :
    (RemoveAllListeners e evt).2 = true
    ∧ Listeners (RemoveAllListeners e evt).1 evt = none
    ∧ evt ∉ EventNames (RemoveAllListeners e evt).1
    ∧ ListenerCount (RemoveAllListeners e evt).1 evt = 0
    ∧ ∀ evt2, evt2 ≠ evt →
        Listeners (RemoveAllListeners e evt).1 evt2 = Listeners e evt2 := by
  refine ⟨?_, ?_, ?_, ?_, ?_⟩
  · simp [RemoveAllListeners, load_delete_self]
  · simp [RemoveAllListeners, Listeners, load_delete_self]
  · simpa [RemoveAllListeners, EventNames] using not_mem_fst_delete e.evtListeners evt
  · simp [RemoveAllListeners, ListenerCount, load_delete_self]
  · intro evt2 h2
    simp [RemoveAllListeners, Listeners, load_delete_ne _ _ _ h2]

theorem removeAllListeners_deletes_entry_witness :
    (RemoveAllListeners ⟨0, [("x", [⟨0⟩]), ("y", [⟨1⟩])]⟩ "x").2 = true
    ∧ Listeners (RemoveAllListeners ⟨0, [("x", [⟨0⟩]), ("y", [⟨1⟩])]⟩ "x").1 "y"
        = Listeners ⟨0, [("x", [⟨0⟩]), ("y", [⟨1⟩])]⟩ "y" :=
  ⟨(removeAllListeners_deletes_entry ⟨0, [("x", [⟨0⟩]), ("y", [⟨1⟩])]⟩ "x").1,
   (removeAllListeners_deletes_entry ⟨0, [("x", [⟨0⟩]), ("y", [⟨1⟩])]⟩ "x").2.2.2.2
     "y" (by decide)⟩

/-- C10: `AddListener` with zero listeners on an absent name creates an
empty entry: the count stays 0 while the name now appears in `EventNames`
and `Len` grows by one. -/
theorem addListener_empty_creates_entry (e : Emitter) (evt : EventName)
    (h : Listeners e evt = none) :
    ListenerCount (AddListener e evt []) evt = 0
    ∧ evt ∈ EventNames (AddListener e evt [])
    ∧ Len (AddListener e evt []) = Len e + 1 := by
  have hl : mapLoad e.evtListeners evt = none := h
  have hreg : (AddListener e evt []).evtListeners = mapStore e.evtListeners evt [] := by
    simp only [AddListener, mapLoadOrStore, hl]
    split
    · rfl
    · simp [store_store]
  refine ⟨?_, ?_, ?_⟩
  · simp [ListenerCount, hreg, load_store_self]
  · simpa only [EventNames, hreg] using mem_fst_store e.evtListeners evt []
  · simp [Len, hreg, store_absent _ _ _ hl]

theorem addListener_empty_creates_entry_witness :
    ListenerCount (AddListener New "a" []) "a" = 0
    ∧ "a" ∈ EventNames (AddListener New "a" [])
    ∧ Len (AddListener New "a" []) = Len New + 1 :=
  addListener_empty_creates_entry New "a" rfl

/-- C4: `RemoveListener` removes exactly the first identity-match for the
name, keeping everything else (later copies included) in relative order and
dropping the count by one, returning `true`; with no match (or an absent
name) it returns `false` and changes nothing; and after a single
`On(name, L)` the first removal returns `true`, the second `false`. -/
theorem removeListener_first_match_only :
    (∀ (e : Emitter) (evt : EventName) (t x : Listener) (a b : List Listener),
      Listeners e evt = some (a ++ x :: b) → x.id = t.id →
      (∀ y ∈ a, y.id ≠ t.id) →
      RemoveListener e evt t
          = ({ e with evtListeners := mapStore e.evtListeners evt (a ++ b) }, true)
        ∧ ListenerCount (RemoveListener e evt t).1 evt + 1 = ListenerCount e evt
        ∧ ∀ evt2, evt2 ≠ evt →
            Listeners (RemoveListener e evt t).1 evt2 = Listeners e evt2)
    ∧ (∀ (e : Emitter) (evt : EventName) (t : Listener),
      (∀ ls, Listeners e evt = some ls → ∀ y ∈ ls, y.id ≠ t.id) →
      RemoveListener e evt t = (e, false))
    ∧ (∀ (t : Listener) (evt : EventName),
      (RemoveListener (On New evt [t]) evt t).2 = true
      ∧ (RemoveListener (RemoveListener (On New evt [t]) evt t).1 evt t).2 = false) := by
  refine ⟨?_, ?_, ?_⟩
  · intro e evt t x a b hload hx ha
    have hl : mapLoad e.evtListeners evt = some (a ++ x :: b) := hload
    have hrf := removeFirst_first_match a b x t hx ha
    have hrl : RemoveListener e evt t
        = ({ e with evtListeners := mapStore e.evtListeners evt (a ++ b) }, true) := by
      simp [RemoveListener, hl, hrf]
    refine ⟨hrl, ?_, ?_⟩
    · rw [hrl]
      simp [ListenerCount, load_store_self, hl]
      omega
    · intro evt2 h2
      rw [hrl]
      simp [Listeners, load_store_ne _ _ _ _ h2]
  · intro e evt t hno
    cases h : mapLoad e.evtListeners evt with
    | none => simp [RemoveListener, h]
    | some ls =>
      have hn := removeFirst_no_match ls t (hno ls h)
      simp [RemoveListener, h, hn]
  · intro t evt
    have h1 : On New evt [t] = ⟨0, [(evt, [t])]⟩ := by
      simp [On, AddListener, New, DefaultMaxListeners, mapLoadOrStore, mapLoad, mapStore]
    have h2 : RemoveListener ⟨0, [(evt, [t])]⟩ evt t = (⟨0, [(evt, [])]⟩, true) := by
      simp [RemoveListener, mapLoad, removeFirst, mapStore]
    have h3 : RemoveListener ⟨0, [(evt, [])]⟩ evt t = (⟨0, [(evt, [])]⟩, false) := by
      simp [RemoveListener, mapLoad, removeFirst]
    rw [h1]
    exact ⟨by rw [h2], by rw [h2, h3]⟩

theorem removeListener_first_match_only_witness :
    RemoveListener ⟨0, [("b", [⟨0⟩, ⟨1⟩])]⟩ "b" ⟨0⟩ = (⟨0, [("b", [⟨1⟩])]⟩, true)
    ∧ RemoveListener ⟨0, [("b", [⟨1⟩])]⟩ "b" ⟨0⟩ = (⟨0, [("b", [⟨1⟩])]⟩, false)
    ∧ (RemoveListener (On New "b" [⟨0⟩]) "b" ⟨0⟩).2 = true := by
  refine ⟨?_, ?_, (removeListener_first_match_only.2.2 ⟨0⟩ "b").1⟩
  · have h := (removeListener_first_match_only.1 ⟨0, [("b", [⟨0⟩, ⟨1⟩])]⟩ "b"
      ⟨0⟩ ⟨0⟩ [] [⟨1⟩] (by decide) rfl (by decide)).1
    rw [h]
    decide
  · exact removeListener_first_match_only.2.1 ⟨0, [("b", [⟨1⟩])]⟩ "b" ⟨0⟩
      (by
        intro ls hls
        have hls2 : mapLoad [("b", [(⟨1⟩ : Listener)])] "b" = some ls := hls
        simp [mapLoad] at hls2
        subst hls2
        decide)

theorem addListener_maxListeners (e : Emitter) (evt : EventName)
    (ls : List Listener) : (AddListener e evt ls).maxListeners = e.maxListeners := by
  simp only [AddListener]
  split <;> rfl

theorem count_add_unbounded (e : Emitter) (he : e.maxListeners = 0)
    (evt name : EventName) (ls : List Listener) :
    ListenerCount (AddListener e evt ls) name
      = ListenerCount e name + (if evt = name then ls.length else 0) := by
  have hreg : (AddListener e evt ls).evtListeners
      = mapStore (mapLoadOrStore e.evtListeners evt).1 evt
          ((mapLoadOrStore e.evtListeners evt).2 ++ ls) := by
    simp only [AddListener]
    split
    · next hc =>
      rw [he] at hc
      exact absurd hc.1 (lt_irrefl 0)
    · rfl
  cases h : mapLoad e.evtListeners evt with
  | some v =>
    have hp : mapLoadOrStore e.evtListeners evt = (e.evtListeners, v) := by
      simp [mapLoadOrStore, h]
    by_cases hn : evt = name
    · subst hn
      simp [ListenerCount, hreg, hp, load_store_self, h]
    · simp [ListenerCount, hreg, hp, load_store_ne _ _ _ _ (Ne.symm hn), hn]
  | none =>
    have hp : mapLoadOrStore e.evtListeners evt = (mapStore e.evtListeners evt [], []) := by
      simp [mapLoadOrStore, h]
    by_cases hn : evt = name
    · subst hn
      simp [ListenerCount, hreg, hp, load_store_self, h]
    · simp [ListenerCount, hreg, hp, load_store_ne _ _ _ _ (Ne.symm hn), hn]

theorem runAdds_count (ops : List (EventName × List Listener)) :
    ∀ (e : Emitter), e.maxListeners = 0 → ∀ name,
      ListenerCount (runAdds e ops) name = ListenerCount e name + totalFor name ops := by
  induction ops with
  | nil =>
    intro e he name
    simp [runAdds, totalFor]
  | cons p rest ih =>
    intro e he name
    have he2 : (AddListener e p.1 p.2).maxListeners = 0 := by
      rw [addListener_maxListeners, he]
    have hr : runAdds e (p :: rest) = runAdds (AddListener e p.1 p.2) rest := by
      simp [runAdds]
    rw [hr, ih (AddListener e p.1 p.2) he2 name, count_add_unbounded e he p.1 name p.2]
    simp [totalFor]
    omega

/-- C7: on a fresh emitter (whose cap is 0, i.e. unlimited), after any
sequence of `AddListener` calls the count for every name equals the total
number of listeners passed for that name: nothing is ever dropped. -/
theorem unbounded_never_drops (ops : List (EventName × List Listener))
    (name : EventName) :
    ListenerCount (runAdds New ops) name = totalFor name ops := by
  have h := runAdds_count ops New rfl name
  simpa [ListenerCount, New, mapLoad] using h

/-- C2 counterexample: with the cap set to 2 on a fresh emitter, a single
`AddListener` call passing 3 listeners retains all 3 (the cap is only
checked against the count before the call), and `Emit` then invokes 3
listeners — not the 2 the claim predicts for every distribution. -/
theorem capped_add_three_at_once_keeps_three :
    ListenerCount (AddListener (SetMaxListeners New 2) "a" [⟨0⟩, ⟨1⟩, ⟨2⟩]) "a" = 3
    ∧ ListenerCount (AddListener (SetMaxListeners New 2) "a" [⟨0⟩, ⟨1⟩, ⟨2⟩]) "a" ≠ 2
    ∧ (Emit (AddListener (SetMaxListeners New 2) "a" [⟨0⟩, ⟨1⟩, ⟨2⟩]) "a"
        ([] : List Nat)).2.length = 3 := by
  decide

/-- C2 amended: with the cap set to 2 on a fresh emitter, adding 3 listeners
one per `AddListener` call retains exactly the first 2, and a subsequent
`Emit` invokes exactly those 2. -/
theorem capped_add_one_per_call_keeps_two (evt : EventName)
    (l1 l2 l3 : Listener) (α : Type) (data : List α) :
    ListenerCount
        (AddListener (AddListener (AddListener (SetMaxListeners New 2) evt [l1])
          evt [l2]) evt [l3]) evt = 2
    ∧ Listeners
        (AddListener (AddListener (AddListener (SetMaxListeners New 2) evt [l1])
          evt [l2]) evt [l3]) evt = some [l1, l2]
    ∧ (Emit
        (AddListener (AddListener (AddListener (SetMaxListeners New 2) evt [l1])
          evt [l2]) evt [l3]) evt data).2 = [(l1, data), (l2, data)] := by
  have h0 : SetMaxListeners New 2 = ⟨2, []⟩ := by
    simp [SetMaxListeners, New, DefaultMaxListeners]
  have h1 : AddListener ⟨2, []⟩ evt [l1] = ⟨2, [(evt, [l1])]⟩ := by
    simp [AddListener, mapLoadOrStore, mapLoad, mapStore]
  have h2 : AddListener ⟨2, [(evt, [l1])]⟩ evt [l2] = ⟨2, [(evt, [l1, l2])]⟩ := by
    simp [AddListener, mapLoadOrStore, mapLoad, mapStore]
  have h3 : AddListener ⟨2, [(evt, [l1, l2])]⟩ evt [l3] = ⟨2, [(evt, [l1, l2])]⟩ := by
    simp [AddListener, mapLoadOrStore, mapLoad]
  rw [h0, h1, h2, h3]
  refine ⟨?_, ?_, ?_⟩ <;> simp [ListenerCount, Listeners, Emit, mapLoad]

end Events
